import Mathlib

/-
Verification of the non-blocking socket engine in src/src/tepollsocket.cpp
(TEpollSocket): send/receive paths, outbound queue discipline, buffer-size
discovery, connection identifiers, and teardown.

Modelling conventions:
* OS interaction (the ::send / ::recv syscalls) is modelled by a trace of
  results consumed one element per syscall; `none` results mean the trace
  was too short to account for every syscall the code would have issued.
* Machine integers are Nat/Int; the 64-bit identifier arithmetic carries
  an explicit % 2^64.
* TSendBuffer and the receive-buffer are external collaborators whose code
  is not part of the source under verification; their operations are
  modelled from the spec's contracts (see the doc comments).
-/

namespace Treefrog

/-- EAGAIN errno value (Linux), the would-block condition. -/
def EAGAIN : Nat := 11

/-- ECONNRESET errno value (Linux). -/
def ECONNRESET : Nat := 104

/-- Access-log record attached to an outbound buffer: carries the settable
response-byte count (`setResponseBytes` / `responseBytes` in the source). -/
structure TAccessLogger where
  responseBytes : Int
deriving Repr, DecidableEq

/-- Modelled from the spec: the outbound-buffer contract (§6, in-memory
variant) — TSendBuffer's own code is not under src/.  `data` is the full
payload, `pos` how many bytes have been consumed, plus the access-log
record (`accessLogger()`). -/
structure TSendBuffer where
  data : List Nat
  pos : Nat
  logger : TAccessLogger
deriving Repr, DecidableEq

/-- Modelled from the spec: `read_window(max_bytes)` returns a bounded
window into the remaining bytes, clamped to what remains (`getData`). -/
def TSendBuffer.getData (b : TSendBuffer) (capacity : Nat) : List Nat :=
  (b.data.drop b.pos).take capacity

/-- Modelled from the spec: `advance(bytes_sent)` consumes n sent bytes
(`seekData`). -/
def TSendBuffer.seekData (b : TSendBuffer) (n : Nat) : TSendBuffer :=
  { b with pos := b.pos + n }

/-- Modelled from the spec: end-of-data query (`atEnd`). -/
def TSendBuffer.atEnd (b : TSendBuffer) : Bool :=
  decide (b.data.length ≤ b.pos)

/-- Bytes of the buffer not yet consumed. -/
def TSendBuffer.remaining (b : TSendBuffer) : List Nat :=
  b.data.drop b.pos

/-- Overwrite the access-log response-byte count
(`logger.setResponseBytes(n)`). -/
def TSendBuffer.setResponseBytes (b : TSendBuffer) (n : Int) : TSendBuffer :=
  { b with logger := { responseBytes := n } }

/-- State update of the queue head after a successful `::send` of `k`
bytes: `buf->seekData(len); logger.setResponseBytes(logger.responseBytes()
+ len)` (tepollsocket.cpp lines 182-183). -/
def TSendBuffer.onSent (b : TSendBuffer) (k : Nat) : TSendBuffer :=
  { b with pos := b.pos + k,
           logger := { responseBytes := b.logger.responseBytes + k } }

/-- One `::send` syscall result: `sent k` is a non-negative return of `k`
with errno left 0; `fail e` is a negative return with errno `e`. -/
inductive OsSendRes where
  | sent (k : Nat)
  | fail (e : Nat)
deriving Repr, DecidableEq

/-- One `::recv` syscall result: `ret bytes` is a non-negative return of
`bytes.length` bytes placed in the receive region with errno left 0 (a
zero-length return is the peer-closed condition); `fail e` is a negative
return with errno `e`. -/
inductive OsRecvRes where
  | ret (bytes : List Nat)
  | fail (e : Nat)
deriving Repr, DecidableEq

/-- The send loop of TEpollSocket::send (lines 169-187): repeatedly take a
window of up to `bufSize` bytes from the head buffer; stop when the window
is empty; otherwise issue one `::send`, consuming one trace element.  On a
positive result the buffer is advanced, the byte count added to the access
log, and the loop continues with errno 0; a non-positive result stops the
loop (`err` is then the errno, 0 for a zero-length return).  Returns the
final head-buffer state, the bytes put on the wire by this loop, the final
`err`, and the unconsumed trace; `none` when the trace is too short. -/
def sendLoop (bufSize : Nat) (buf : TSendBuffer) (err : Nat) :
    List OsSendRes → Option (TSendBuffer × List Nat × Nat × List OsSendRes)
  | [] =>
    if (buf.getData bufSize).length = 0 then
      some (buf, [], err, [])
    else
      none
  | r :: rest =>
    if (buf.getData bufSize).length = 0 then
      some (buf, [], err, r :: rest)
    else
      match r with
      | OsSendRes.fail e => some (buf, [], e, rest)
      | OsSendRes.sent k =>
        if k = 0 then
          some (buf, [], 0, rest)
        else
          match sendLoop bufSize (buf.onSent k) 0 rest with
          | none => none
          | some (b, w, e, r2) =>
            some (b, (buf.getData bufSize).take k ++ w, e, r2)

/-- Everything observable about one TEpollSocket::send call: the queue
afterwards, bytes written to the socket, the final errno, the int return
value, whether the reactor interest was re-armed (`modifyPoll`), the
access-log records written (their response-byte counts), the buffers
disposed, and the unconsumed OS trace. -/
structure SendOutcome where
  queue : List TSendBuffer
  wire : List Nat
  err : Nat
  ret : Int
  modifyPoll : Bool
  logsWritten : List Int
  disposed : List TSendBuffer
  rest : List OsSendRes
deriving Repr, DecidableEq

/-- TEpollSocket::send (lines 158-218).  Empty queue: return 0 at once.
Otherwise run the send loop on the head, classify `err` (0 and EAGAIN are
benign; ECONNRESET and any other error set the access-log count to -1 and
the return to -1), re-arm the reactor when `err != EAGAIN && !sendBuf.
isEmpty()` (the queue at that point still holds the head), and retire the
head (write its access log, dequeue and dispose it) when it is at end of
data or the call is returning an error. -/
def send (bufSize : Nat) (queue : List TSendBuffer) (trace : List OsSendRes) :
    Option SendOutcome :=
  match queue with
  | [] => some ⟨[], [], 0, 0, false, [], [], trace⟩
  | head :: tail =>
    match sendLoop bufSize head 0 trace with
    | none => none
    | some (b, w, err, rest) =>
      let failed : Bool := !(err == 0 || err == EAGAIN)
      let b2 := if failed then b.setResponseBytes (-1) else b
      let ret : Int := if failed then -1 else 0
      let modify : Bool := (err != EAGAIN) && !(List.isEmpty (b2 :: tail))
      let retire : Bool := b2.atEnd || decide (ret < 0)
      if retire then
        some ⟨tail, w, err, ret, modify, [b2.logger.responseBytes], [b2], rest⟩
      else
        some ⟨b2 :: tail, w, err, ret, modify, [], [], rest⟩

/-- TEpollSocket::enqueueSendData (line 223): append to the outbound
queue. -/
def enqueueSendData (queue : List TSendBuffer) (b : TSendBuffer) :
    List TSendBuffer :=
  queue ++ [b]

/-- Well-formedness of an OS send trace for a run of the send loop: every
successful `::send` reports at most as many bytes as were passed to it
(the window length).  Mirrors the branch structure of `sendLoop`. -/
def sendTraceWF (bufSize : Nat) (buf : TSendBuffer) :
    List OsSendRes → Bool
  | [] => true
  | r :: rest =>
    if (buf.getData bufSize).length = 0 then
      true
    else
      match r with
      | OsSendRes.fail _ => true
      | OsSendRes.sent k =>
        if k = 0 then
          true
        else
          decide (k ≤ (buf.getData bufSize).length) &&
            sendTraceWF bufSize (buf.onSent k) rest

/-- The bytes still to be transmitted by a queue, head first: the
concatenation of every queued buffer's remaining bytes in queue order. -/
def queueBytes (q : List TSendBuffer) : List Nat :=
  (q.map TSendBuffer.remaining).flatten

/-- A sequence of TEpollSocket::send invocations (one OS trace per call),
as the reactor would issue them on successive writability events.
Returns the final queue and the concatenation of the bytes each call put
on the wire, in call order. -/
def sendRun (bufSize : Nat) :
    List TSendBuffer → List (List OsSendRes) →
    Option (List TSendBuffer × List Nat)
  | q, [] => some (q, [])
  | q, tr :: trs =>
    match send bufSize q tr with
    | none => none
    | some out =>
      match sendRun bufSize out.queue trs with
      | none => none
      | some (qF, w) => some (qF, out.wire ++ w)

/-- A run is clean when every call's OS trace is well formed for the
then-current head, every call is fully accounted for by its trace, and no
call ends in a send error. -/
def sendRunOk (bufSize : Nat) :
    List TSendBuffer → List (List OsSendRes) → Bool
  | _, [] => true
  | q, tr :: trs =>
    (match q with
     | [] => true
     | b :: _ => sendTraceWF bufSize b tr) &&
    (match send bufSize q tr with
     | none => false
     | some out => (out.ret == 0) && sendRunOk bufSize out.queue trs)

/-- The receive loop of TEpollSocket::recv (lines 121-133): each iteration
issues one `::recv`; a positive byte count is committed to the receive
buffer (modelled from the spec: append-only byte sink) and the loop
repeats; a non-positive result stops the loop with its errno (0 for a
zero-length read).  Returns the receive buffer, the final `err`, and the
unconsumed trace. -/
def recvLoop (acc : List Nat) :
    List OsRecvRes → Option (List Nat × Nat × List OsRecvRes)
  | [] => none
  | OsRecvRes.ret bytes :: rest =>
    if bytes.length = 0 then
      some (acc, 0, rest)
    else
      recvLoop (acc ++ bytes) rest
  | OsRecvRes.fail e :: rest => some (acc, e, rest)

/-- Which branch of the terminating switch of TEpollSocket::recv ran:
`success` is the silent EAGAIN branch, `disconnected` the debug-logged
"Socket disconnected" branch (errno 0 or ECONNRESET), `failed` the
error-logged "Failed recv" branch. -/
inductive RecvClass where
  | success
  | disconnected
  | failed
deriving Repr, DecidableEq

/-- Everything observable about one TEpollSocket::recv call. -/
structure RecvOutcome where
  recvBuffer : List Nat
  err : Nat
  ret : Int
  logClass : RecvClass
  rest : List OsRecvRes
deriving Repr, DecidableEq

/-- TEpollSocket::recv (lines 117-152): drain the socket until a
non-positive read, then classify errno — EAGAIN returns 0; errno 0
(zero-length read) and ECONNRESET log a disconnect and return -1; any
other errno logs an error and returns -1. -/
def recv (acc : List Nat) (trace : List OsRecvRes) : Option RecvOutcome :=
  match recvLoop acc trace with
  | none => none
  | some (acc2, err, rest) =>
    if err = EAGAIN then
      some ⟨acc2, err, 0, RecvClass.success, rest⟩
    else if err = 0 ∨ err = ECONNRESET then
      some ⟨acc2, err, -1, RecvClass.disconnected, rest⟩
    else
      some ⟨acc2, err, -1, RecvClass.failed, rest⟩

/-- The two process-wide statics `sendBufSize` and `recvBufSize`
(lines 25-26), both 0 at process start. -/
structure BufferSizes where
  sendBufSize : Int
  recvBufSize : Int
deriving Repr, DecidableEq

/-- TEpollSocket::initBuffer (lines 69-89).  `sndRes`/`rcvRes` model the
two getsockopt calls: `some v` is success reporting `v`, `none` failure
(in which case the fixed default 131072 = 128*1024 is used).  The body
runs only when `sendBufSize == 0`. -/
def initBuffer (st : BufferSizes) (sndRes rcvRes : Option Int) :
    BufferSizes :=
  if st.sendBufSize = 0 then
    { sendBufSize := sndRes.getD 131072, recvBufSize := rcvRes.getD 131072 }
  else
    st

/-- A sequence of initBuffer calls (one per connection created), each with
its own getsockopt results. -/
def initBufferRun (st : BufferSizes) :
    List (Option Int × Option Int) → BufferSizes
  | [] => st
  | (s, r) :: rest => initBufferRun (initBuffer st s r) rest

/-- Identifier formation in the TEpollSocket constructor (line 97):
`identifier = (h << 32) | (b & 0xffffffff)` in 64-bit arithmetic, where
`h` is the coarse timestamp and `b` the fetched counter value. -/
def makeIdentifier (h b : Nat) : Nat :=
  ((h <<< 32) ||| (b &&& 0xffffffff)) % 2 ^ 64

/-- The process-wide object counter (line 27) starts at 1 and
fetchAndAddOrdered(1) hands out 1, 2, 3, ...: the n-th construction
(0-based) reads value `1 + n`. -/
def counterAt (n : Nat) : Nat := 1 + n

/-- Identifier assigned by the n-th construction (0-based) when the
coarse timestamp reads `t`. -/
def identifierAt (t n : Nat) : Nat := makeIdentifier t (counterAt n)

/-- The per-connection state of TEpollSocket that teardown touches: the
descriptor and the outbound queue. -/
structure TEpollSocket where
  sd : Int
  sendBuf : List TSendBuffer
deriving Repr, DecidableEq

/-- TEpollSocket::close (lines 239-245): close the descriptor if open and
clear it to the sentinel 0; idempotent. -/
def TEpollSocket.close (c : TEpollSocket) : TEpollSocket :=
  if c.sd > 0 then { c with sd := 0 } else c

/-- Modelled from the spec: disposing an outbound buffer finalizes
(writes) its access-log record — §7 guarantees access-log finalization on
teardown; TSendBuffer's destructor is not under src/.  The value returned
is the response-byte count the written record carries. -/
def disposeSendBuffer (b : TSendBuffer) : Int :=
  b.logger.responseBytes

/-- Dispose a list of queued buffers front to back (the destructor's
QListIterator order), collecting the access-log records written and the
buffers freed, in order. -/
def disposeAll : List TSendBuffer → List Int × List TSendBuffer
  | [] => ([], [])
  | b :: rest =>
    let (ls, ds) := disposeAll rest
    (disposeSendBuffer b :: ls, b :: ds)

/-- Observable effect of the destructor. -/
structure DtorEffect where
  conn : TEpollSocket
  logsWritten : List Int
  disposed : List TSendBuffer
  wire : List Nat
deriving Repr, DecidableEq

/-- TEpollSocket::~TEpollSocket (lines 102-110): close(), then delete
every queued send buffer front to back, then clear the queue.  No
`::send` is issued, so the wire sees nothing (`wire = []`). -/
def TEpollSocket.dtor (c : TEpollSocket) : DtorEffect :=
  let c1 := c.close
  let (ls, ds) := disposeAll c1.sendBuf
  { conn := { c1 with sendBuf := [] }, logsWritten := ls, disposed := ds,
    wire := [] }

/-- List bookkeeping: a take of the front of a list followed by a take of
what remains concatenates to a single longer take. -/
lemma take_add_take {α : Type*} (l : List α) (a b : Nat) :
    l.take a ++ (l.drop a).take b = l.take (a + b) := by
  rw [List.take_drop]
  have h1 : l.take a = (l.take (a + b)).take a := by
    rw [List.take_take, Nat.min_eq_left (Nat.le_add_right a b)]
  rw [h1, List.take_append_drop]

/-- Core invariant of the send loop: under a well-formed OS trace the
loop leaves the head buffer's payload alone, advances its position and
its access-log counter by exactly the number of bytes emitted, and the
bytes emitted are exactly the next bytes of the head, in order. -/
lemma sendLoop_spec (bufSize : Nat) (trace : List OsSendRes) :
    ∀ (buf : TSendBuffer) (err : Nat) (b : TSendBuffer) (w : List Nat)
      (e : Nat) (rest : List OsSendRes),
      sendTraceWF bufSize buf trace = true →
      sendLoop bufSize buf err trace = some (b, w, e, rest) →
      b.data = buf.data ∧ b.pos = buf.pos + w.length ∧
      w = buf.remaining.take w.length ∧
      w.length ≤ buf.remaining.length ∧
      b.logger.responseBytes = buf.logger.responseBytes + (w.length : Int) := by
  induction trace with
  | nil =>
    intro buf err b w e rest hwf h
    simp only [sendLoop] at h
    split at h
    · simp only [Option.some.injEq, Prod.mk.injEq] at h
      obtain ⟨rfl, rfl, rfl, rfl⟩ := h
      simp [TSendBuffer.remaining]
    · simp at h
  | cons r rest0 ih =>
    intro buf err b w e rest hwf h
    simp only [sendLoop] at h
    split at h
    · simp only [Option.some.injEq, Prod.mk.injEq] at h
      obtain ⟨rfl, rfl, rfl, rfl⟩ := h
      simp [TSendBuffer.remaining]
    · rename_i hwin
      cases r with
      | fail e0 =>
        simp only [Option.some.injEq, Prod.mk.injEq] at h
        obtain ⟨rfl, rfl, rfl, rfl⟩ := h
        simp [TSendBuffer.remaining]
      | sent k =>
        dsimp only at h
        by_cases hk0 : k = 0
        · rw [if_pos hk0] at h
          simp only [Option.some.injEq, Prod.mk.injEq] at h
          obtain ⟨rfl, rfl, rfl, rfl⟩ := h
          simp [TSendBuffer.remaining]
        · rw [if_neg hk0] at h
          cases hrec : sendLoop bufSize (buf.onSent k) 0 rest0 with
          | none => rw [hrec] at h; simp at h
          | some val =>
            obtain ⟨b1, w1, e1, r1⟩ := val
            rw [hrec] at h
            simp only [Option.some.injEq, Prod.mk.injEq] at h
            obtain ⟨rfl, rfl, rfl, rfl⟩ := h
            simp only [sendTraceWF, if_neg hwin, if_neg hk0,
              Bool.and_eq_true, decide_eq_true_eq] at hwf
            obtain ⟨hk, hwf1⟩ := hwf
            obtain ⟨ih1, ih2, ih3, ih4, ih5⟩ :=
              ih (buf.onSent k) 0 b1 w1 e1 r1 hwf1 hrec
            have hwinlen : (buf.getData bufSize).length =
                min bufSize buf.remaining.length := by
              simp [TSendBuffer.getData, TSendBuffer.remaining]
            have hkbuf : k ≤ bufSize := by
              rw [hwinlen] at hk; exact le_trans hk (Nat.min_le_left _ _)
            have hkrem : k ≤ buf.remaining.length := by
              rw [hwinlen] at hk; exact le_trans hk (Nat.min_le_right _ _)
            have htake : (buf.getData bufSize).take k = buf.remaining.take k := by
              simp only [TSendBuffer.getData, TSendBuffer.remaining,
                List.take_take, Nat.min_eq_left hkbuf]
            have htklen : ((buf.getData bufSize).take k).length = k := by
              simp only [List.length_take]
              exact Nat.min_eq_left hk
            have hrem1 : (buf.onSent k).remaining = buf.remaining.drop k := by
              simp [TSendBuffer.onSent, TSendBuffer.remaining, List.drop_drop]
            refine ⟨?_, ?_, ?_, ?_, ?_⟩
            · simpa [TSendBuffer.onSent] using ih1
            · simp only [List.length_append, htklen]
              rw [ih2]
              simp [TSendBuffer.onSent]
              omega
            · have hlen2 : (List.take k buf.remaining).length = k := by
                rw [List.length_take]; exact Nat.min_eq_left hkrem
              have h3' := ih3
              rw [hrem1] at h3'
              rw [htake, List.length_append, hlen2]
              conv_lhs => rw [h3']
              exact take_add_take _ _ _
            · simp only [List.length_append, htklen]
              have hw1 : w1.length ≤ (buf.onSent k).remaining.length := ih4
              rw [hrem1, List.length_drop] at hw1
              omega
            · simp only [List.length_append, htklen]
              rw [ih5]
              simp only [TSendBuffer.onSent]
              push_cast
              ring

/-- TEpollSocket::send when the loop ended in a send error (errno neither
0 nor EAGAIN): the access-log count is forced to -1 and written, the head
is dequeued and disposed, the reactor is re-armed, and -1 is returned;
the tail of the queue is exactly preserved. -/
lemma send_cons_err (bufSize : Nat) (head : TSendBuffer)
    (tail : List TSendBuffer) (trace : List OsSendRes) (b : TSendBuffer)
    (w : List Nat) (err : Nat) (rest : List OsSendRes)
    (h : sendLoop bufSize head 0 trace = some (b, w, err, rest))
    (he : ¬(err = 0 ∨ err = EAGAIN)) :
    send bufSize (head :: tail) trace =
      some ⟨tail, w, err, -1, true, [(-1 : Int)],
        [b.setResponseBytes (-1)], rest⟩ := by
  push_neg at he
  obtain ⟨he0, hea⟩ := he
  simp only [send, h]
  simp [he0, hea, TSendBuffer.setResponseBytes]

/-- TEpollSocket::send when the loop ended benignly (errno 0 or EAGAIN)
with the head at end of data: the head's access log is written with its
accumulated count, the head is dequeued and disposed, 0 is returned, and
the reactor is re-armed exactly when errno was not EAGAIN. -/
lemma send_cons_done (bufSize : Nat) (head : TSendBuffer)
    (tail : List TSendBuffer) (trace : List OsSendRes) (b : TSendBuffer)
    (w : List Nat) (err : Nat) (rest : List OsSendRes)
    (h : sendLoop bufSize head 0 trace = some (b, w, err, rest))
    (he : err = 0 ∨ err = EAGAIN) (hend : b.atEnd = true) :
    send bufSize (head :: tail) trace =
      some ⟨tail, w, err, 0, err != EAGAIN, [b.logger.responseBytes],
        [b], rest⟩ := by
  simp only [send, h]
  rcases he with rfl | rfl <;> simp [hend, EAGAIN]

/-- TEpollSocket::send when the loop ended benignly with the head not yet
exhausted: nothing is dequeued or logged, 0 is returned, and the reactor
is re-armed exactly when errno was not EAGAIN. -/
lemma send_cons_more (bufSize : Nat) (head : TSendBuffer)
    (tail : List TSendBuffer) (trace : List OsSendRes) (b : TSendBuffer)
    (w : List Nat) (err : Nat) (rest : List OsSendRes)
    (h : sendLoop bufSize head 0 trace = some (b, w, err, rest))
    (he : err = 0 ∨ err = EAGAIN) (hend : b.atEnd = false) :
    send bufSize (head :: tail) trace =
      some ⟨b :: tail, w, err, 0, err != EAGAIN, [], [], rest⟩ := by
  simp only [send, h]
  rcases he with rfl | rfl <;> simp [hend, EAGAIN]

/-- One error-free TEpollSocket::send call takes its wire bytes from the
front of the queue's pending byte stream and leaves exactly the rest
pending. -/
lemma send_ok_step (bufSize : Nat) (q : List TSendBuffer)
    (tr : List OsSendRes) (out : SendOutcome)
    (hwf : (match q with
            | [] => true
            | bh :: _ => sendTraceWF bufSize bh tr) = true)
    (h : send bufSize q tr = some out) (hret : out.ret = 0) :
    out.wire = (queueBytes q).take out.wire.length ∧
    queueBytes out.queue = (queueBytes q).drop out.wire.length := by
  cases q with
  | nil =>
    simp only [send, Option.some.injEq] at h
    subst h
    simp [queueBytes]
  | cons bh bt =>
    dsimp only at hwf
    cases hl : sendLoop bufSize bh 0 tr with
    | none => simp only [send, hl] at h; exact Option.noConfusion h
    | some val =>
      obtain ⟨b, w, err, rest⟩ := val
      obtain ⟨s1, s2, s3, s4, s5⟩ :=
        sendLoop_spec bufSize tr bh 0 b w err rest hwf hl
      have hqb : queueBytes (bh :: bt) = bh.remaining ++ queueBytes bt := by
        simp [queueBytes]
      by_cases he : err = 0 ∨ err = EAGAIN
      · cases hend : b.atEnd with
        | false =>
          rw [send_cons_more bufSize bh bt tr b w err rest hl he hend] at h
          obtain rfl := Option.some.inj h
          constructor
          · rw [hqb, List.take_append_of_le_length s4]
            exact s3
          · have hbrem : b.remaining = bh.remaining.drop w.length := by
              simp only [TSendBuffer.remaining, s1, s2, ← List.drop_drop]
            simp only [queueBytes, List.map_cons, List.flatten_cons]
            rw [hbrem, List.drop_append_of_le_length s4]
        | true =>
          rw [send_cons_done bufSize bh bt tr b w err rest hl he hend] at h
          obtain rfl := Option.some.inj h
          have hendlen : bh.remaining.length ≤ w.length := by
            simp only [TSendBuffer.atEnd, decide_eq_true_eq, s1, s2] at hend
            simp only [TSendBuffer.remaining, List.length_drop]
            omega
          constructor
          · rw [hqb, List.take_append_of_le_length s4]
            exact s3
          · rw [hqb, List.drop_append_of_le_length s4]
            have : w.length = bh.remaining.length := le_antisymm s4 hendlen
            rw [this, List.drop_length, List.nil_append]
      · rw [send_cons_err bufSize bh bt tr b w err rest hl he] at h
        obtain rfl := Option.some.inj h
        simp at hret

/-- A clean run of send calls emits exactly the front of the queue's
pending byte stream, in order, leaving the rest pending. -/
lemma sendRun_spec (bufSize : Nat) (trs : List (List OsSendRes)) :
    ∀ (q qF : List TSendBuffer) (w : List Nat),
      sendRunOk bufSize q trs = true →
      sendRun bufSize q trs = some (qF, w) →
      w = (queueBytes q).take w.length ∧
      queueBytes qF = (queueBytes q).drop w.length := by
  induction trs with
  | nil =>
    intro q qF w hok h
    simp only [sendRun, Option.some.injEq, Prod.mk.injEq] at h
    obtain ⟨rfl, rfl⟩ := h
    simp
  | cons tr trs ih =>
    intro q qF w hok h
    simp only [sendRunOk, Bool.and_eq_true] at hok
    obtain ⟨hwf, hok2⟩ := hok
    simp only [sendRun] at h
    cases hs : send bufSize q tr with
    | none => rw [hs] at h; simp at h
    | some out =>
      rw [hs] at hok2 h
      dsimp only at h
      simp only [Bool.and_eq_true, beq_iff_eq] at hok2
      obtain ⟨hret, hok3⟩ := hok2
      cases hr : sendRun bufSize out.queue trs with
      | none => rw [hr] at h; simp at h
      | some p =>
        obtain ⟨q2, w2⟩ := p
        rw [hr] at h
        simp only [Option.some.injEq, Prod.mk.injEq] at h
        obtain ⟨rfl, rfl⟩ := h
        obtain ⟨p1, p2⟩ := send_ok_step bufSize q tr out hwf hs hret
        obtain ⟨r1, r2⟩ := ih out.queue q2 w2 hok3 hr
        have hw2 : w2 = ((queueBytes q).drop out.wire.length).take w2.length := by
          rw [← p2]; exact r1
        constructor
        · rw [List.length_append]
          conv_lhs => rw [p1, hw2]
          exact take_add_take _ _ _
        · rw [List.length_append, r2, p2, List.drop_drop]

/-- Disposing a queue writes one access-log record per buffer and frees
the buffers, both in queue (FIFO) order. -/
lemma disposeAll_spec (q : List TSendBuffer) :
    disposeAll q = (q.map disposeSendBuffer, q) := by
  induction q with
  | nil => rfl
  | cons b rest ih => simp [disposeAll, ih]

/-- Arithmetic form of the identifier: for a 32-bit timestamp the shifted
or is exactly timestamp times 2^32 plus the counter reduced mod 2^32. -/
lemma makeIdentifier_eq (t b : Nat) (ht : t < 2 ^ 32) :
    makeIdentifier t b = t * 2 ^ 32 + b % 2 ^ 32 := by
  have hmask : b &&& 0xffffffff = b % 2 ^ 32 := by
    have h1 : (0xffffffff : Nat) = 2 ^ 32 - 1 := by norm_num
    rw [h1, Nat.and_pow_two_sub_one_eq_mod]
  have hblt : b % 2 ^ 32 < 2 ^ 32 := Nat.mod_lt _ (by norm_num)
  have hlor : (t <<< 32) ||| (b % 2 ^ 32) = t * 2 ^ 32 + b % 2 ^ 32 := by
    calc (t <<< 32) ||| (b % 2 ^ 32)
        = 2 ^ 32 * t ||| (b % 2 ^ 32) := by
          rw [Nat.shiftLeft_eq, Nat.mul_comm]
      _ = 2 ^ 32 * t + b % 2 ^ 32 := (Nat.mul_add_lt_is_or hblt t).symm
      _ = t * 2 ^ 32 + b % 2 ^ 32 := by ring
  have hlt : t * 2 ^ 32 + b % 2 ^ 32 < 2 ^ 64 := by
    have h2 : t * 2 ^ 32 ≤ (2 ^ 32 - 1) * 2 ^ 32 :=
      Nat.mul_le_mul_right _ (by omega)
    norm_num at h2 hblt ⊢
    omega
  rw [makeIdentifier, hmask, hlor, Nat.mod_eq_of_lt hlt]

/-- The receive loop over a trace of nonempty chunks followed by a
non-positive read commits exactly the chunks, in order. -/
lemma recvLoop_chunks (chunks : List (List Nat)) :
    ∀ (acc : List Nat) (rest : List OsRecvRes) (e : Nat),
      (∀ c ∈ chunks, c ≠ []) →
      recvLoop acc (chunks.map OsRecvRes.ret ++ OsRecvRes.fail e :: rest) =
        some (acc ++ chunks.flatten, e, rest) := by
  induction chunks with
  | nil =>
    intro acc rest e _
    simp [recvLoop]
  | cons c cs ih =>
    intro acc rest e hc
    have hcne : c ≠ [] := hc c (List.mem_cons_self c cs)
    simp only [List.map_cons, List.cons_append, recvLoop]
    rw [if_neg (by simpa [List.length_eq_zero] using hcne)]
    simp only [List.append_eq]
    rw [ih (acc ++ c) rest e (fun x hx => hc x (List.mem_cons_of_mem _ hx))]
    simp

/-- Once `sendBufSize` is nonzero, any number of further initBuffer calls
leave the discovered sizes untouched. -/
lemma initBufferRun_frozen (calls : List (Option Int × Option Int)) :
    ∀ st : BufferSizes, st.sendBufSize ≠ 0 → initBufferRun st calls = st := by
  induction calls with
  | nil => intro st _; rfl
  | cons c rest ih =>
    intro st h
    obtain ⟨s, r⟩ := c
    simp only [initBufferRun, initBuffer, if_neg h]
    exact ih st h

/-- Enqueueing buffers one by one builds the queue in enqueue order. -/
lemma foldl_enqueue (bufs : List TSendBuffer) :
    ∀ q, List.foldl enqueueSendData q bufs = q ++ bufs := by
  induction bufs with
  | nil => intro q; simp
  | cons b rest ih => intro q; simp [List.foldl, enqueueSendData, ih]

/-- On a non-empty queue, send() re-arms the reactor exactly when the
final errno is not EAGAIN: the queue-non-empty conjunct of the check is
evaluated before the head is dequeued and so always holds. -/
lemma send_modifyPoll_cons (bufSize : Nat) (head : TSendBuffer)
    (tail : List TSendBuffer) (trace : List OsSendRes) (out : SendOutcome)
    (h : send bufSize (head :: tail) trace = some out) :
    out.modifyPoll = true ↔ out.err ≠ EAGAIN := by
  cases hl : sendLoop bufSize head 0 trace with
  | none => simp only [send, hl] at h; exact Option.noConfusion h
  | some val =>
    obtain ⟨b, w, err, rest⟩ := val
    by_cases he : err = 0 ∨ err = EAGAIN
    · cases hend : b.atEnd with
      | false =>
        rw [send_cons_more bufSize head tail trace b w err rest hl he hend] at h
        obtain rfl := Option.some.inj h
        simp [bne_iff_ne]
      | true =>
        rw [send_cons_done bufSize head tail trace b w err rest hl he hend] at h
        obtain rfl := Option.some.inj h
        simp [bne_iff_ne]
    · rw [send_cons_err bufSize head tail trace b w err rest hl he] at h
      obtain rfl := Option.some.inj h
      push_neg at he
      simp [he.2]

/-- C1: bytes written to the socket by send() appear in exactly the
enqueue (FIFO) order and byte sequence.  Part 1: enqueueSendData builds
the queue in enqueue order.  Part 2 (per call): under a well-formed OS
trace, send() emits exactly the next bytes of the head buffer in order,
and the queue afterwards is either the untouched tail (head retired) or
the advanced head followed by the untouched tail — only the head is ever
read, advanced or dequeued.  Part 3 (whole runs): a clean run of send()
calls puts on the wire exactly a prefix of the concatenation of the
queued buffers' bytes in queue order, leaving exactly the remainder
pending. -/
theorem thm_C1 :
    (∀ bufs : List TSendBuffer,
       List.foldl enqueueSendData [] bufs = bufs) ∧
    (∀ (bufSize : Nat) (head : TSendBuffer) (tail : List TSendBuffer)
       (trace : List OsSendRes) (out : SendOutcome),
       sendTraceWF bufSize head trace = true →
       send bufSize (head :: tail) trace = some out →
       out.wire = head.remaining.take out.wire.length ∧
       (out.queue = tail ∨
         ∃ h2, out.queue = h2 :: tail ∧ h2.data = head.data ∧
           h2.pos = head.pos + out.wire.length)) ∧
    (∀ (bufSize : Nat) (bufs qF : List TSendBuffer)
       (trs : List (List OsSendRes)) (w : List Nat),
       sendRunOk bufSize bufs trs = true →
       sendRun bufSize bufs trs = some (qF, w) →
       w = (queueBytes bufs).take w.length ∧
       queueBytes qF = (queueBytes bufs).drop w.length) := by
  refine ⟨fun bufs => by simpa using foldl_enqueue bufs [], ?_, ?_⟩
  · intro bufSize head tail trace out hwf h
    cases hl : sendLoop bufSize head 0 trace with
    | none => simp only [send, hl] at h; exact Option.noConfusion h
    | some val =>
      obtain ⟨b, w, err, rest⟩ := val
      obtain ⟨s1, s2, s3, s4, s5⟩ :=
        sendLoop_spec bufSize trace head 0 b w err rest hwf hl
      by_cases he : err = 0 ∨ err = EAGAIN
      · cases hend : b.atEnd with
        | false =>
          rw [send_cons_more bufSize head tail trace b w err rest hl he hend] at h
          obtain rfl := Option.some.inj h
          exact ⟨s3, Or.inr ⟨b, rfl, s1, s2⟩⟩
        | true =>
          rw [send_cons_done bufSize head tail trace b w err rest hl he hend] at h
          obtain rfl := Option.some.inj h
          exact ⟨s3, Or.inl rfl⟩
      · rw [send_cons_err bufSize head tail trace b w err rest hl he] at h
        obtain rfl := Option.some.inj h
        exact ⟨s3, Or.inl rfl⟩
  · intro bufSize bufs qF trs w hok h
    exact sendRun_spec bufSize trs bufs qF w hok h

/-- C2: destroying a Connection closes its descriptor, disposes every
still-queued outbound buffer in FIFO order, finalizes (writes) each such
buffer's access-log record, and attempts no further send — the wire sees
no bytes from teardown.  The destructor is the sole teardown path, so
these actions do not depend on which side (send or receive) triggered
the teardown.  The access-log finalization on disposal is modelled from
the spec, TSendBuffer's destructor not being part of the source under
verification. -/
theorem thm_C2 (c : TEpollSocket) (hsd : c.sd > 0) :
    (c.dtor.conn.sd = 0 ∧ c.dtor.conn.sendBuf = []) ∧
    c.dtor.disposed = c.sendBuf ∧
    c.dtor.logsWritten = c.sendBuf.map disposeSendBuffer ∧
    c.dtor.wire = [] := by
  unfold TEpollSocket.dtor TEpollSocket.close
  rw [if_pos hsd]
  simp [disposeAll_spec]

/-- C3 counterexample: the claim says a zero-length first read makes
receive() return *closed*, distinct from both success and error; but the
code returns the same int (-1) for the zero-read case as for a hard OS
error (here errno 9), so the returned classification of a zero-length
read is not distinct from the error return. -/
theorem cex_C3 :
    (recv [] [OsRecvRes.ret []]).map RecvOutcome.ret =
      (recv [] [OsRecvRes.fail 9]).map RecvOutcome.ret ∧
    (recv [] [OsRecvRes.ret []]).map RecvOutcome.ret = some (-1) := by
  exact ⟨rfl, rfl⟩

/-- C3 (amended): receive() classifies its terminating condition in three
branches — would-block returns 0 (success); a zero-length read or
connection-reset takes the disconnect branch; any other errno takes the
failure branch — but the *return value* collapses the last two, both
returning -1; the branches are distinguishable only by which log channel
fires.  In particular a first read of zero length yields the disconnect
branch with return value -1 (teardown), not success. -/
theorem thm_C3 (acc : List Nat) (trace : List OsRecvRes)
    (out : RecvOutcome) (h : recv acc trace = some out) :
    ((out.ret = 0 ↔ out.logClass = RecvClass.success) ∧
     (out.ret = -1 ↔ (out.logClass = RecvClass.disconnected ∨
        out.logClass = RecvClass.failed))) ∧
    (out.logClass = RecvClass.success ↔ out.err = EAGAIN) ∧
    (out.logClass = RecvClass.disconnected ↔
      (out.err = 0 ∨ out.err = ECONNRESET)) ∧
    (∀ rest2, trace = OsRecvRes.ret [] :: rest2 →
      out = ⟨acc, 0, -1, RecvClass.disconnected, rest2⟩) := by
  cases hl : recvLoop acc trace with
  | none => simp only [recv, hl] at h; exact Option.noConfusion h
  | some val =>
    obtain ⟨acc2, e, rest⟩ := val
    simp only [recv] at h
    rw [hl] at h
    dsimp only at h
    by_cases h1 : e = EAGAIN
    · rw [if_pos h1] at h
      subst h1
      obtain rfl := Option.some.inj h
      refine ⟨⟨by simp, by simp⟩, by simp, by simp [EAGAIN, ECONNRESET], ?_⟩
      intro rest2 htr
      rw [htr] at hl
      simp [recvLoop, EAGAIN] at hl
    · rw [if_neg h1] at h
      by_cases h2 : e = 0 ∨ e = ECONNRESET
      · rw [if_pos h2] at h
        obtain rfl := Option.some.inj h
        refine ⟨⟨by simp, by simp⟩, by simp [h1], by simp [h2], ?_⟩
        intro rest2 htr
        rw [htr] at hl
        have hz : recvLoop acc (OsRecvRes.ret [] :: rest2) =
            some (acc, 0, rest2) := rfl
        rw [hz] at hl
        simp only [Option.some.injEq, Prod.mk.injEq] at hl
        obtain ⟨rfl, rfl, rfl⟩ := hl
        rfl
      · rw [if_neg h2] at h
        obtain rfl := Option.some.inj h
        refine ⟨⟨by simp, by simp⟩, by simp [h1], by simp [h2], ?_⟩
        intro rest2 htr
        rw [htr] at hl
        have hz : recvLoop acc (OsRecvRes.ret [] :: rest2) =
            some (acc, 0, rest2) := rfl
        rw [hz] at hl
        simp only [Option.some.injEq, Prod.mk.injEq] at hl
        exact absurd (Or.inl hl.2.1.symm) h2

/-- C4: when the OS delivers K bytes split across any number of nonempty
reads (each no larger than the receive region) before a would-block,
receive() commits exactly those K bytes to the receive buffer, in order,
and returns success. -/
theorem thm_C4 (recvBufSize : Nat) (acc : List Nat)
    (chunks : List (List Nat)) (rest : List OsRecvRes)
    (_hone : chunks ≠ []) (hpos : ∀ c ∈ chunks, c ≠ [])
    (_hsz : ∀ c ∈ chunks, c.length ≤ recvBufSize) :
    recv acc (chunks.map OsRecvRes.ret ++ OsRecvRes.fail EAGAIN :: rest) =
      some ⟨acc ++ chunks.flatten, EAGAIN, 0, RecvClass.success, rest⟩ := by
  simp only [recv]
  rw [recvLoop_chunks chunks acc rest EAGAIN hpos]
  dsimp only
  rw [if_pos rfl]

/-- C5: when the send loop ends with a connection-reset or any other OS
error on the queue head, the head's access-log response-byte count is set
to the sentinel -1 and its log record written, the head is dequeued and
disposed (never retried), the reactor is re-armed, -1 is returned, and
the queue behind the head is exactly preserved; when the loop instead
ends benignly with the head at end of data, the head is likewise
finalized (log written with the accumulated count) and disposed, with
return value 0. -/
theorem thm_C5 (bufSize : Nat) (head : TSendBuffer)
    (tail : List TSendBuffer) (trace : List OsSendRes) (b : TSendBuffer)
    (w : List Nat) (err : Nat) (rest : List OsSendRes)
    (h : sendLoop bufSize head 0 trace = some (b, w, err, rest)) :
    (¬(err = 0 ∨ err = EAGAIN) →
      send bufSize (head :: tail) trace =
        some ⟨tail, w, err, -1, true, [(-1 : Int)],
          [b.setResponseBytes (-1)], rest⟩) ∧
    ((err = 0 ∨ err = EAGAIN) → b.atEnd = true →
      send bufSize (head :: tail) trace =
        some ⟨tail, w, err, 0, err != EAGAIN, [b.logger.responseBytes],
          [b], rest⟩) :=
  ⟨fun he => send_cons_err bufSize head tail trace b w err rest h he,
   fun he hend => send_cons_done bufSize head tail trace b w err rest h he hend⟩

/-- C6: send() re-arms the reactor's interest for this connection (read
and write, edge-triggered) exactly when the loop's terminating errno was
not EAGAIN and the queue is non-empty at the post-loop check — the check
runs before head retirement, so that queue is non-empty precisely when
the call started with a non-empty queue. -/
theorem thm_C6 (bufSize : Nat) (q : List TSendBuffer)
    (trace : List OsSendRes) (out : SendOutcome)
    (h : send bufSize q trace = some out) :
    out.modifyPoll = true ↔ (out.err ≠ EAGAIN ∧ q ≠ []) := by
  cases q with
  | nil =>
    simp only [send, Option.some.injEq] at h
    subst h
    simp
  | cons bh bt =>
    rw [send_modifyPoll_cons bufSize bh bt trace out h]
    simp

/-- C7 counterexample: identifiers are not pairwise distinct across a
whole process lifetime — construction number 0 and construction number
2^32 (counter values 1 and 2^32 + 1) under the same coarse timestamp
receive the same identifier, because the counter is masked to its low 32
bits. -/
theorem cex_C7 :
    identifierAt 0 0 = identifierAt 0 4294967296 ∧
    (0 : Nat) ≠ 4294967296 := by
  exact ⟨by decide, by decide⟩

/-- C7 (amended): identifiers are formed as
`(timestamp << 32) | (counter & 0xffffffff)` with the counter starting at
1 and increasing by exactly 1 per construction; identifiers are pairwise
distinct among constructions whose counter values differ by less than
2^32 (for 32-bit coarse timestamps), but collide once the 32-bit masked
counter wraps. -/
theorem thm_C7 :
    (counterAt 0 = 1 ∧ ∀ n, counterAt (n + 1) = counterAt n + 1) ∧
    (∀ t1 n1 t2 n2, t1 < 2 ^ 32 → t2 < 2 ^ 32 → n1 < n2 →
      n2 - n1 < 2 ^ 32 → identifierAt t1 n1 ≠ identifierAt t2 n2) := by
  refine ⟨⟨rfl, fun n => by unfold counterAt; omega⟩, ?_⟩
  intro t1 n1 t2 n2 ht1 ht2 hlt hspan heq
  unfold identifierAt counterAt at heq
  rw [makeIdentifier_eq _ _ ht1, makeIdentifier_eq _ _ ht2] at heq
  have e32 : (2 : Nat) ^ 32 = 4294967296 := by norm_num
  rw [e32] at heq ht1 ht2 hspan
  omega

/-- C8: buffer-size discovery initializes the two process-wide sizes at
most once per process: starting from the fresh state (both 0), the first
call sets each size to the OS-reported value, substituting the fixed
default 131072 when the query fails; provided the resulting send size is
nonzero (the guard value), every later call — one per further connection
— is a no-op leaving both values unchanged. -/
theorem thm_C8 (s r : Option Int) (calls : List (Option Int × Option Int))
    (hs : s.getD 131072 ≠ 0) :
    initBuffer ⟨0, 0⟩ s r = ⟨s.getD 131072, r.getD 131072⟩ ∧
    initBufferRun (initBuffer ⟨0, 0⟩ s r) calls = initBuffer ⟨0, 0⟩ s r := by
  have h1 : initBuffer ⟨0, 0⟩ s r =
      ⟨s.getD 131072, r.getD 131072⟩ := by
    simp [initBuffer]
  refine ⟨h1, ?_⟩
  rw [h1]
  exact initBufferRun_frozen calls _ hs

/-- C9: send() on an empty outbound queue returns success immediately
with no side effect whatsoever: no OS send is issued (no trace element
consumed, nothing on the wire), the queue stays empty, no access log is
written, nothing is disposed, and the reactor interest is not touched. -/
theorem thm_C9 (bufSize : Nat) (trace : List OsSendRes) :
    send bufSize [] trace = some ⟨[], [], 0, 0, false, [], [], trace⟩ :=
  rfl

/-- C10: in send() the re-arm check precedes head retirement, so its
queue-non-empty conjunct always holds for a call that passed the initial
empty-queue guard; hence on any non-empty queue the reactor is re-armed
exactly when the terminating errno was not EAGAIN — including the case
of a head fully sent without error, which is retired in the same call
and can leave the queue empty with no data left to send. -/
theorem thm_C10 (bufSize : Nat) (head : TSendBuffer)
    (tail : List TSendBuffer) (trace : List OsSendRes) (out : SendOutcome)
    (h : send bufSize (head :: tail) trace = some out) :
    out.modifyPoll = true ↔ out.err ≠ EAGAIN :=
  send_modifyPoll_cons bufSize head tail trace out h

/-- C1 witness: a one-byte-window run over a single enqueued buffer
[5]. -/
theorem thm_C1_witness :
    (List.foldl enqueueSendData [] [(⟨[5], 0, ⟨0⟩⟩ : TSendBuffer)] =
       [(⟨[5], 0, ⟨0⟩⟩ : TSendBuffer)]) ∧
    (sendTraceWF 1 ⟨[5], 0, ⟨0⟩⟩ [OsSendRes.sent 1] = true ∧
     send 1 [⟨[5], 0, ⟨0⟩⟩] [OsSendRes.sent 1] =
       some ⟨[], [5], 0, 0, true, [1], [⟨[5], 1, ⟨1⟩⟩], []⟩ ∧
     (([5] : List Nat) =
        (⟨[5], 0, ⟨0⟩⟩ : TSendBuffer).remaining.take 1 ∧
      (([] : List TSendBuffer) = [] ∨
        ∃ h2 : TSendBuffer, ([] : List TSendBuffer) = [h2] ∧
          h2.data = [5] ∧ h2.pos = 1))) ∧
    (sendRunOk 1 [⟨[5], 0, ⟨0⟩⟩] [[OsSendRes.sent 1]] = true ∧
     sendRun 1 [⟨[5], 0, ⟨0⟩⟩] [[OsSendRes.sent 1]] = some ([], [5]) ∧
     (([5] : List Nat) = (queueBytes [⟨[5], 0, ⟨0⟩⟩]).take 1 ∧
      queueBytes ([] : List TSendBuffer) =
        (queueBytes [⟨[5], 0, ⟨0⟩⟩]).drop 1)) := by
  refine ⟨thm_C1.1 _, ⟨by decide, by decide, ?_⟩, ⟨by decide, by decide, ?_⟩⟩
  · exact thm_C1.2.1 1 ⟨[5], 0, ⟨0⟩⟩ [] [OsSendRes.sent 1]
      ⟨[], [5], 0, 0, true, [1], [⟨[5], 1, ⟨1⟩⟩], []⟩ (by decide) (by decide)
  · exact thm_C1.2.2 1 [⟨[5], 0, ⟨0⟩⟩] [] [[OsSendRes.sent 1]] [5]
      (by decide) (by decide)

/-- C2 witness: tearing down a connection with descriptor 5 and one
queued buffer whose access log carries 3 response bytes. -/
theorem thm_C2_witness :
    ((⟨5, [⟨[1], 0, ⟨3⟩⟩]⟩ : TEpollSocket).sd > 0) ∧
    (((⟨5, [⟨[1], 0, ⟨3⟩⟩]⟩ : TEpollSocket).dtor.conn.sd = 0 ∧
      (⟨5, [⟨[1], 0, ⟨3⟩⟩]⟩ : TEpollSocket).dtor.conn.sendBuf = []) ∧
     (⟨5, [⟨[1], 0, ⟨3⟩⟩]⟩ : TEpollSocket).dtor.disposed =
       [⟨[1], 0, ⟨3⟩⟩] ∧
     (⟨5, [⟨[1], 0, ⟨3⟩⟩]⟩ : TEpollSocket).dtor.logsWritten = [3] ∧
     (⟨5, [⟨[1], 0, ⟨3⟩⟩]⟩ : TEpollSocket).dtor.wire = []) :=
  ⟨by decide, thm_C2 ⟨5, [⟨[1], 0, ⟨3⟩⟩]⟩ (by decide)⟩

/-- C3 witness: a descriptor whose first read returns zero length takes
the disconnect branch with return value -1. -/
theorem thm_C3_witness :
    recv [] [OsRecvRes.ret []] =
      some ⟨[], 0, -1, RecvClass.disconnected, []⟩ ∧
    (⟨[], 0, -1, RecvClass.disconnected, []⟩ : RecvOutcome) =
      ⟨[], 0, -1, RecvClass.disconnected, []⟩ := by
  have h : recv [] [OsRecvRes.ret []] =
      some ⟨[], 0, -1, RecvClass.disconnected, []⟩ := by decide
  exact ⟨h, (thm_C3 [] [OsRecvRes.ret []]
    ⟨[], 0, -1, RecvClass.disconnected, []⟩ h).2.2.2 [] rfl⟩

/-- C4 witness: 3 bytes delivered as fragments [1] and [2,3] before a
would-block are committed as [1,2,3] with a success return. -/
theorem thm_C4_witness :
    (([[1], [2, 3]] : List (List Nat)) ≠ [] ∧
     (∀ c ∈ ([[1], [2, 3]] : List (List Nat)), c ≠ []) ∧
     (∀ c ∈ ([[1], [2, 3]] : List (List Nat)), c.length ≤ 2)) ∧
    recv [] ([[1], [2, 3]].map OsRecvRes.ret ++
        OsRecvRes.fail EAGAIN :: []) =
      some ⟨[1, 2, 3], EAGAIN, 0, RecvClass.success, []⟩ := by
  refine ⟨⟨by decide, by decide, by decide⟩, ?_⟩
  exact thm_C4 2 [] [[1], [2, 3]] [] (by decide) (by decide) (by decide)

/-- C5 witness: an immediate ECONNRESET on a queued [5] disposes the head
with the -1 sentinel logged and the tail preserved; a clean full send of
[5] retires the head with its accumulated count logged. -/
theorem thm_C5_witness :
    (sendLoop 1 ⟨[5], 0, ⟨0⟩⟩ 0 [OsSendRes.fail 104] =
       some (⟨[5], 0, ⟨0⟩⟩, [], 104, [])) ∧
    send 1 [⟨[5], 0, ⟨0⟩⟩, ⟨[7], 0, ⟨0⟩⟩] [OsSendRes.fail 104] =
      some ⟨[⟨[7], 0, ⟨0⟩⟩], [], 104, -1, true, [-1],
        [⟨[5], 0, ⟨-1⟩⟩], []⟩ ∧
    (sendLoop 1 ⟨[5], 0, ⟨0⟩⟩ 0 [OsSendRes.sent 1] =
       some (⟨[5], 1, ⟨1⟩⟩, [5], 0, [])) ∧
    send 1 [⟨[5], 0, ⟨0⟩⟩] [OsSendRes.sent 1] =
      some ⟨[], [5], 0, 0, true, [1], [⟨[5], 1, ⟨1⟩⟩], []⟩ := by
  refine ⟨by decide, ?_, by decide, ?_⟩
  · exact (thm_C5 1 ⟨[5], 0, ⟨0⟩⟩ [⟨[7], 0, ⟨0⟩⟩] [OsSendRes.fail 104]
      ⟨[5], 0, ⟨0⟩⟩ [] 104 [] (by decide)).1 (by decide)
  · exact (thm_C5 1 ⟨[5], 0, ⟨0⟩⟩ [] [OsSendRes.sent 1]
      ⟨[5], 1, ⟨1⟩⟩ [5] 0 [] (by decide)).2 (by decide) (by decide)

/-- C6 witness: a call ending in EAGAIN with the queue still non-empty
does not re-arm the reactor, matching the characterization. -/
theorem thm_C6_witness :
    send 1 [⟨[5], 0, ⟨0⟩⟩] [OsSendRes.fail 11] =
      some ⟨[⟨[5], 0, ⟨0⟩⟩], [], 11, 0, false, [], [], []⟩ ∧
    ((false = true) ↔ ((11 : Nat) ≠ EAGAIN ∧
      ([(⟨[5], 0, ⟨0⟩⟩ : TSendBuffer)] : List TSendBuffer) ≠ [])) := by
  have h : send 1 [⟨[5], 0, ⟨0⟩⟩] [OsSendRes.fail 11] =
      some ⟨[⟨[5], 0, ⟨0⟩⟩], [], 11, 0, false, [], [], []⟩ := by decide
  exact ⟨h, thm_C6 1 [⟨[5], 0, ⟨0⟩⟩] [OsSendRes.fail 11]
    ⟨[⟨[5], 0, ⟨0⟩⟩], [], 11, 0, false, [], [], []⟩ h⟩

/-- C7 witness: constructions 0 and 1 (counter values 1 and 2) at 32-bit
timestamp 0 receive distinct identifiers. -/
theorem thm_C7_witness :
    ((0 : Nat) < 2 ^ 32 ∧ (0 : Nat) < 1 ∧ (1 : Nat) - 0 < 2 ^ 32) ∧
    identifierAt 0 0 ≠ identifierAt 0 1 := by
  refine ⟨⟨by decide, by decide, by decide⟩, ?_⟩
  exact thm_C7.2 0 0 0 1 (by decide) (by decide) (by decide) (by decide)

/-- C8 witness: a successful 65536-byte SO_SNDBUF query with a failed
SO_RCVBUF query, followed by two further connections' calls that change
nothing. -/
theorem thm_C8_witness :
    ((some (65536 : Int)).getD 131072 ≠ 0) ∧
    (initBuffer ⟨0, 0⟩ (some 65536) none = ⟨65536, 131072⟩ ∧
     initBufferRun (initBuffer ⟨0, 0⟩ (some 65536) none)
         [(some 1, some 2), (none, none)] =
       initBuffer ⟨0, 0⟩ (some 65536) none) :=
  ⟨by decide, thm_C8 (some 65536) none [(some 1, some 2), (none, none)]
    (by decide)⟩

/-- C10 witness: a head fully sent without error is retired in the same
call, leaving the queue empty, and the reactor is still re-armed. -/
theorem thm_C10_witness :
    send 1 [⟨[5], 0, ⟨0⟩⟩] [OsSendRes.sent 1] =
      some ⟨[], [5], 0, 0, true, [1], [⟨[5], 1, ⟨1⟩⟩], []⟩ ∧
    ((true = true) ↔ (0 : Nat) ≠ EAGAIN) := by
  have h : send 1 [⟨[5], 0, ⟨0⟩⟩] [OsSendRes.sent 1] =
      some ⟨[], [5], 0, 0, true, [1], [⟨[5], 1, ⟨1⟩⟩], []⟩ := by decide
  exact ⟨h, thm_C10 1 ⟨[5], 0, ⟨0⟩⟩ [] [OsSendRes.sent 1]
    ⟨[], [5], 0, 0, true, [1], [⟨[5], 1, ⟨1⟩⟩], []⟩ h⟩

end Treefrog
